import Mathlib

/-!
Verification of the dockerfile-source-checksum repository.

This file shallowly embeds the Checksum Engine of the repository
(`pkg/checksum/dockerfile.go` and the two variants of `main.go`) and proves
or refutes the frozen claims about it.

Modelling conventions:

* Go strings and byte streams are Lean `String`s; writing to a
  `hash.Hash` accumulator is string concatenation (a hash state is
  determined exactly by the byte stream written to it, and
  `h.Write(a); h.Write(b)` is indistinguishable from `h.Write(a ++ b)`).
* The underlying hash function (sha1/md5/sha256, `h.Sum(nil)`) is modelled
  by the ideal injective stream encoder `hsum`; hex encoding of the final
  digest is modelled by the injective encoder `hexEncode`.  Two digests
  differ in this model exactly when the real implementations feed distinct
  byte streams to the underlying hash, which is the design-level meaning of
  digest inequality for a collision-resistant hash.  The choice of
  algorithm does not change the composition protocol (spec section 4.4).
* The read-only filesystem rooted at the working directory (an external
  collaborator per spec section 6) is a finite tree `FSTree`; a directory
  stores its entries in the physical listing order of the underlying
  filesystem.  Go's `fs.ReadDir` contract returns entries sorted by
  filename, which is modelled by sorting the stored entries with
  `sortByKey Prod.fst` at each enumeration.
* Go maps (`map[string]string`) are association lists with the
  first-binding-wins lookup; in-place mutation of a caller's map is
  modelled by returning the updated list.
-/

/-- Ideal model of a hash accumulator finalisation (`h.Sum(nil)`): an
injective encoding of the byte stream written to the accumulator. -/
def hsum (s : String) : String := "(" ++ s ++ ")"

/-- Injective model of `fmt.Sprintf percent-x` hex encoding of a digest. -/
def hexEncode (d : String) : String := "hex:" ++ d

/-- Byte-wise `less or equal` on strings, as Go's `sort.Strings` comparison
(`<=` on byte slices); chars are compared by code point. -/
def strLeAux : List Char → List Char → Bool
  | [], _ => true
  | _ :: _, [] => false
  | a :: as, b :: bs => if a = b then strLeAux as bs else decide (a < b)

/-- Lexicographic comparison on strings (model of Go string `<=`). -/
def strLe (a b : String) : Bool := strLeAux a.data b.data

theorem strLeAux_total : ∀ as bs, strLeAux as bs = true ∨ strLeAux bs as = true := by
  intro as
  induction as with
  | nil => intro bs; left; rfl
  | cons a as ih =>
    intro bs
    cases bs with
    | nil => right; rfl
    | cons b bs =>
      by_cases hab : a = b
      · subst hab
        simp only [strLeAux, if_pos rfl]
        exact ih bs
      · rcases lt_or_gt_of_ne hab with h | h
        · left
          simp [strLeAux, hab, h]
        · right
          have hba : b ≠ a := fun hh => hab hh.symm
          simp [strLeAux, hba, h]

theorem strLeAux_antisymm :
    ∀ as bs, strLeAux as bs = true → strLeAux bs as = true → as = bs := by
  intro as
  induction as with
  | nil =>
    intro bs h1 h2
    cases bs with
    | nil => rfl
    | cons b bs => simp [strLeAux] at h2
  | cons a as ih =>
    intro bs h1 h2
    cases bs with
    | nil => simp [strLeAux] at h1
    | cons b bs =>
      by_cases hab : a = b
      · subst hab
        simp only [strLeAux, if_pos rfl] at h1 h2
        rw [ih bs h1 h2]
      · have hba : b ≠ a := fun hh => hab hh.symm
        simp only [strLeAux, if_neg hab, decide_eq_true_eq] at h1
        simp only [strLeAux, if_neg hba, decide_eq_true_eq] at h2
        exact absurd h2 (lt_asymm h1)

theorem strLeAux_trans :
    ∀ as bs cs, strLeAux as bs = true → strLeAux bs cs = true → strLeAux as cs = true := by
  intro as
  induction as with
  | nil => intro bs cs h1 h2; rfl
  | cons a as ih =>
    intro bs cs h1 h2
    cases bs with
    | nil => simp [strLeAux] at h1
    | cons b bs =>
      cases cs with
      | nil => simp [strLeAux] at h2
      | cons c cs =>
        by_cases hab : a = b
        · subst hab
          simp only [strLeAux, if_pos rfl] at h1
          by_cases hbc : a = c
          · subst hbc
            simp only [strLeAux, if_pos rfl] at h2 ⊢
            exact ih bs cs h1 h2
          · simp only [strLeAux, if_neg hbc] at h2 ⊢
            exact h2
        · simp only [strLeAux, if_neg hab, decide_eq_true_eq] at h1
          by_cases hbc : b = c
          · subst hbc
            have hac : a ≠ b := hab
            simp only [strLeAux, if_neg hac, decide_eq_true_eq]
            exact h1
          · simp only [strLeAux, if_neg hbc, decide_eq_true_eq] at h2
            have hlt : a < c := lt_trans h1 h2
            have hac : a ≠ c := ne_of_lt hlt
            simp only [strLeAux, if_neg hac, decide_eq_true_eq]
            exact hlt

theorem strLe_total (a b : String) : strLe a b = true ∨ strLe b a = true :=
  strLeAux_total a.data b.data

theorem strLe_antisymm {a b : String} (h1 : strLe a b = true) (h2 : strLe b a = true) :
    a = b := by
  have h := strLeAux_antisymm a.data b.data h1 h2
  cases a; cases b; exact congrArg String.mk h

theorem strLe_trans {a b c : String} (h1 : strLe a b = true) (h2 : strLe b c = true) :
    strLe a c = true :=
  strLeAux_trans a.data b.data c.data h1 h2

/-- Sorting a list by a string key, as Go's `sort.Strings` and `sort.Slice`
by-name sorts (also the order contract of Go's `fs.ReadDir` and `fs.Glob`). -/
def sortByKey (k : α → String) (l : List α) : List α :=
  List.insertionSort (fun a b => strLe (k a) (k b) = true) l

/-- Sorting a list of strings lexicographically, Go's `sort.Strings`. -/
def sortStrings (l : List String) : List String := sortByKey id l

theorem sortByKey_perm (k : α → String) (l : List α) :
    List.Perm (sortByKey k l) l :=
  List.perm_insertionSort _ l

theorem mem_sortByKey {k : α → String} {l : List α} {x : α} :
    x ∈ sortByKey k l ↔ x ∈ l :=
  (sortByKey_perm k l).mem_iff

theorem sortByKey_sorted (k : α → String) (l : List α) :
    List.Sorted (fun a b => strLe (k a) (k b) = true) (sortByKey k l) := by
  haveI : IsTotal α (fun a b => strLe (k a) (k b) = true) :=
    ⟨fun a b => strLe_total (k a) (k b)⟩
  haveI : IsTrans α (fun a b => strLe (k a) (k b) = true) :=
    ⟨fun _ _ _ h1 h2 => strLe_trans h1 h2⟩
  exact List.sorted_insertionSort _ l

theorem sorted_strict_of_nodup {k : α → String} {l : List α}
    (hs : List.Sorted (fun a b => strLe (k a) (k b) = true) l)
    (hn : (l.map k).Nodup) :
    List.Sorted (fun a b => strLe (k a) (k b) = true ∧ k a ≠ k b) l := by
  have hn' : List.Pairwise (fun a b => k a ≠ k b) l := by
    rw [List.Nodup, List.pairwise_map] at hn
    exact hn
  exact hs.and hn'

/-- Two listings of the same entries (with pairwise distinct keys) sort to
the same list: the sort canonicalises the physical listing order. -/
theorem sortByKey_eq_of_perm {k : α → String} {l1 l2 : List α}
    (hp : List.Perm l1 l2) (hn : (l1.map k).Nodup) :
    sortByKey k l1 = sortByKey k l2 := by
  haveI : IsAntisymm α (fun a b => strLe (k a) (k b) = true ∧ k a ≠ k b) :=
    ⟨fun a b hab hba => absurd (strLe_antisymm hab.1 hba.1) hab.2⟩
  have hp' : List.Perm (sortByKey k l1) (sortByKey k l2) :=
    ((sortByKey_perm k l1).trans hp).trans (sortByKey_perm k l2).symm
  have hn1 : ((sortByKey k l1).map k).Nodup := by
    have : List.Perm ((sortByKey k l1).map k) (l1.map k) :=
      (sortByKey_perm k l1).map k
    exact this.nodup_iff.mpr hn
  have hn2 : ((sortByKey k l2).map k).Nodup := by
    have hperm : List.Perm ((sortByKey k l1).map k) ((sortByKey k l2).map k) :=
      hp'.map k
    exact hperm.nodup_iff.mp hn1
  exact List.eq_of_perm_of_sorted hp'
    (sorted_strict_of_nodup (sortByKey_sorted k l1) hn1)
    (sorted_strict_of_nodup (sortByKey_sorted k l2) hn2)

/-- Concatenation of a list of byte streams (a sequence of accumulator
writes, in order). -/
def strConcat : List String → String
  | [] => ""
  | s :: r => s ++ strConcat r

theorem foldl_append_eq (f : α → String) :
    ∀ (l : List α) (h : String),
      l.foldl (fun acc x => acc ++ f x) h = h ++ strConcat (l.map f) := by
  intro l
  induction l with
  | nil => intro h; simp [strConcat]
  | cons x r ih =>
    intro h
    simp only [List.foldl_cons, List.map_cons, strConcat, ih, String.append_assoc]

/-- A read-only filesystem node (external collaborator, spec section 6):
a regular file with its byte content, or a directory with its entries in
the physical listing order of the underlying filesystem.  Symbolic links
and special files are outside the model (spec section 4.3 treats them as
fatal errors). -/
inductive FSTree where
  | file (content : String)
  | dir (entries : List (String × FSTree))

mutual

def sizeT : FSTree → Nat
  | .file _ => 1
  | .dir es => sizeL es + 1

def sizeL : List (String × FSTree) → Nat
  | [] => 1
  | (_, t) :: r => sizeT t + sizeL r + 1

end

theorem sizeT_pos (t : FSTree) : 1 ≤ sizeT t := by
  cases t with
  | file c => simp [sizeT]
  | dir es => simp [sizeT]

theorem sizeT_lt_of_mem {e : String × FSTree} :
    ∀ {es : List (String × FSTree)}, e ∈ es → sizeT e.2 < sizeL es := by
  intro es
  induction es with
  | nil => intro h; cases h
  | cons a r ih =>
    intro h
    obtain ⟨n, t⟩ := a
    rcases List.mem_cons.mp h with h | h
    · subst h
      simp only [sizeL]
      omega
    · have := ih h
      simp only [sizeL]
      omega

/-- Go's `filepath.Join(path, name)` for the clean relative paths that occur
during tree hashing. -/
def filepathJoin (p n : String) : String := p ++ "/" ++ n

/-- Fuelled byte stream of the FLATTENED tree hasher of
`pkg/checksum/dockerfile.go` (`pathSha`/`dirSha`/`fileSha`): every write the
functions perform into the single caller-supplied accumulator `h`, in order.
A file contributes its content (`fileSha`: `io.Copy(h, f)`); a directory
contributes, for each child in `fs.ReadDir` order (sorted by name),
`filepath.Join(path, child.Name())` followed by the child's own stream.
The fuel argument only serves structural termination and is irrelevant
above `sizeT` (theorem `flatShaF_stable`). -/
def flatShaF : Nat → String → FSTree → String
  | 0, _, _ => ""
  | _ + 1, _, .file c => c
  | fuel + 1, p, .dir es =>
      strConcat ((sortByKey Prod.fst es).map
        (fun e => filepathJoin p e.1 ++ flatShaF fuel (filepathJoin p e.1) e.2))

/-- Byte stream written into the shared accumulator by
`pathSha(fsys, path, h)` of `pkg/checksum/dockerfile.go` for the node at
`path`. -/
def flatSha (p : String) (t : FSTree) : String := flatShaF (sizeT t) p t

/-- Fuelled digest of the STRUCTURAL tree hasher of the first `main.go`
variant (`pathSha`/`dirSha`/`fileSha` returning `[]byte`): a file's digest
is the hash of its content; a directory's digest is the hash of a fresh
per-directory accumulator fed, for each child in `fs.ReadDir` order (sorted
by name), `filepath.Join(path, child.Name())` followed by the child's
recursively computed digest. -/
def pathShaF : Nat → String → FSTree → String
  | 0, _, _ => ""
  | _ + 1, _, .file c => hsum c
  | fuel + 1, p, .dir es =>
      hsum (strConcat ((sortByKey Prod.fst es).map
        (fun e => filepathJoin p e.1 ++ pathShaF fuel (filepathJoin p e.1) e.2)))

/-- Digest returned by `pathSha(fsys, path)` of the first `main.go` variant
for the node at `path` (the structural, Merkle-style Tree Hasher of spec
section 4.3). -/
def pathShaStruct (p : String) (t : FSTree) : String := pathShaF (sizeT t) p t

theorem flatShaF_stable :
    ∀ n t p m, sizeT t ≤ n → sizeT t ≤ m → flatShaF n p t = flatShaF m p t := by
  intro n
  induction n using Nat.strong_induction_on with
  | _ n ih =>
    intro t p m hn hm
    match n, m, t with
    | 0, _, t => exact absurd hn (by have := sizeT_pos t; omega)
    | _ + 1, 0, t => exact absurd hm (by have := sizeT_pos t; omega)
    | _ + 1, _ + 1, .file c => rfl
    | a + 1, b + 1, .dir es =>
      simp only [flatShaF]
      congr 1
      apply List.map_congr_left
      intro e he
      have hmem : e ∈ es := mem_sortByKey.mp he
      have hlt : sizeT e.2 < sizeL es := sizeT_lt_of_mem hmem
      have ha : sizeL es + 1 ≤ a + 1 := by simpa [sizeT] using hn
      have hb : sizeL es + 1 ≤ b + 1 := by simpa [sizeT] using hm
      rw [ih a (by omega) e.2 (filepathJoin p e.1) b (by omega) (by omega)]

theorem pathShaF_stable :
    ∀ n t p m, sizeT t ≤ n → sizeT t ≤ m → pathShaF n p t = pathShaF m p t := by
  intro n
  induction n using Nat.strong_induction_on with
  | _ n ih =>
    intro t p m hn hm
    match n, m, t with
    | 0, _, t => exact absurd hn (by have := sizeT_pos t; omega)
    | _ + 1, 0, t => exact absurd hm (by have := sizeT_pos t; omega)
    | _ + 1, _ + 1, .file c => rfl
    | a + 1, b + 1, .dir es =>
      simp only [pathShaF]
      congr 2
      apply List.map_congr_left
      intro e he
      have hmem : e ∈ es := mem_sortByKey.mp he
      have hlt : sizeT e.2 < sizeL es := sizeT_lt_of_mem hmem
      have ha : sizeL es + 1 ≤ a + 1 := by simpa [sizeT] using hn
      have hb : sizeL es + 1 ≤ b + 1 := by simpa [sizeT] using hm
      rw [ih a (by omega) e.2 (filepathJoin p e.1) b (by omega) (by omega)]

theorem flatSha_file (p c : String) : flatSha p (.file c) = c := rfl

theorem flatSha_dir (p : String) (es : List (String × FSTree)) :
    flatSha p (.dir es) =
      strConcat ((sortByKey Prod.fst es).map
        (fun e => filepathJoin p e.1 ++ flatSha (filepathJoin p e.1) e.2)) := by
  show flatShaF (sizeT (.dir es)) p (.dir es) = _
  have hsz : sizeT (FSTree.dir es) = sizeL es + 1 := by simp [sizeT]
  rw [hsz]
  simp only [flatShaF]
  congr 1
  apply List.map_congr_left
  intro e he
  have hmem : e ∈ es := mem_sortByKey.mp he
  have hlt : sizeT e.2 < sizeL es := sizeT_lt_of_mem hmem
  rw [flatShaF_stable (sizeL es) e.2 (filepathJoin p e.1) (sizeT e.2) (by omega) (le_refl _)]
  rfl

theorem pathShaStruct_file (p c : String) : pathShaStruct p (.file c) = hsum c := rfl

theorem pathShaStruct_dir (p : String) (es : List (String × FSTree)) :
    pathShaStruct p (.dir es) =
      hsum (strConcat ((sortByKey Prod.fst es).map
        (fun e => filepathJoin p e.1 ++ pathShaStruct (filepathJoin p e.1) e.2))) := by
  show pathShaF (sizeT (.dir es)) p (.dir es) = _
  have hsz : sizeT (FSTree.dir es) = sizeL es + 1 := by simp [sizeT]
  rw [hsz]
  simp only [pathShaF]
  congr 2
  apply List.map_congr_left
  intro e he
  have hmem : e ∈ es := mem_sortByKey.mp he
  have hlt : sizeT e.2 < sizeL es := sizeT_lt_of_mem hmem
  rw [pathShaF_stable (sizeL es) e.2 (filepathJoin p e.1) (sizeT e.2) (by omega) (le_refl _)]
  rfl

/-- Go map read `m[k]`: first-binding lookup in the association-list model. -/
def lookupKV : List (String × String) → String → Option String
  | [], _ => none
  | (k0, v0) :: r, k => if k0 = k then some v0 else lookupKV r k

/-- Go map read with the zero value for a missing key (shell expansion of an
unset variable yields the empty string). -/
def lookupD (m : List (String × String)) (k : String) : String :=
  (lookupKV m k).getD ""

/-- Go map assignment `m[k] = v`: replaces the binding if the key is
present, otherwise appends it. -/
def setKV : List (String × String) → String → String → List (String × String)
  | [], k, v => [(k, v)]
  | (k0, v0) :: r, k, v =>
      if k0 = k then (k0, v) :: r else (k0, v0) :: setKV r k v

theorem lookupKV_setKV_self :
    ∀ (m : List (String × String)) (k v : String),
      lookupKV (setKV m k v) k = some v := by
  intro m
  induction m with
  | nil => intro k v; simp [setKV, lookupKV]
  | cons a r ih =>
    intro k v
    obtain ⟨k0, v0⟩ := a
    by_cases h : k0 = k
    · subst h
      simp [setKV, lookupKV]
    · simp [setKV, lookupKV, h, ih]

theorem lookupKV_setKV_other :
    ∀ (m : List (String × String)) (k v k2 : String), k2 ≠ k →
      lookupKV (setKV m k v) k2 = lookupKV m k2 := by
  intro m
  induction m with
  | nil =>
    intro k v k2 hne
    simp only [setKV, lookupKV]
    rw [if_neg (fun h : k = k2 => hne h.symm)]
  | cons a r ih =>
    intro k v k2 hne
    obtain ⟨k0, v0⟩ := a
    by_cases h : k0 = k
    · subst h
      have : k0 ≠ k2 := fun hh => hne hh.symm
      simp [setKV, lookupKV, this]
    · simp only [setKV, if_neg h, lookupKV]
      by_cases h2 : k0 = k2
      · simp [h2]
      · simp [h2, ih k v k2 hne]

/-- One token of a path-bearing or templated word of the recipe: a literal
piece or a variable reference.  The external Word Expander collaborator
(`shell.NewLex` / `ProcessWordWithMap`, spec section 6) is modelled by
concatenating literals and variable lookups (`expandWord`); an unset
variable expands to the empty string, as in the shell. -/
inductive WTok where
  | lit (s : String)
  | var (name : String)

/-- A word of the recipe before expansion. -/
abbrev Word := List WTok

/-- The external single-word expander applied with the current Variable
Table (`shlex.ProcessWordWithMap(key, buildArgs)`). -/
def expandWord (tbl : List (String × String)) (w : Word) : String :=
  strConcat (w.map (fun tok =>
    match tok with
    | .lit s => s
    | .var n => lookupD tbl n))

/-- A mount declaration of a `RUN` instruction
(`instructions.Mount`: fields `Type`, `From`, `Source`). -/
structure Mount where
  mountType : String
  mountFrom : String
  mountSource : Word

/-- One typed recipe instruction, as produced by the external
`instructions.Parse` collaborator.  Only the fields read by
`PathsFromDockerfile` are modelled: `ArgCommand.Args` (name and optional
default), `EnvCommand.Env` (name/value pairs), `CopyCommand.From` and
`CopyCommand.SourcePaths`, `AddCommand.SourcePaths`, and the mounts of a
`RunCommand`. -/
inductive Instr where
  | arg (args : List (String × Option Word))
  | env (pairs : List (String × Word))
  | copy (copyFrom : String) (sources : List Word)
  | add (sources : List Word)
  | run (mounts : List Mount)

/-- A build stage: an ordered sequence of instructions (`stage.Commands`). -/
structure Stage where
  commands : List Instr

/-- Parsed recipe: the meta `ARG` commands that precede the first stage
(the `argCommands` result of `instructions.Parse`, raw default strings) and
the ordered stages. -/
structure Recipe where
  metaArgs : List (List (String × Option String))
  stages : List Stage

/-- One meta-`ARG` key/value: `if _, ok := buildArgs[arg.Key]; !ok &&
arg.Value != nil { buildArgs[arg.Key] = arg.ValueString() }`. -/
def insertArgDefault (tbl : List (String × String)) (kv : String × Option String) :
    List (String × String) :=
  match kv.2 with
  | some v => if (lookupKV tbl kv.1).isSome then tbl else setKV tbl kv.1 v
  | none => tbl

/-- The loop over `argCommands` of `PathsFromDockerfile`: defaults of the
meta `ARG` commands are inserted for keys not already present. -/
def applyMetaArgs (metas : List (List (String × Option String)))
    (tbl : List (String × String)) : List (String × String) :=
  metas.foldl (fun t argCmd => argCmd.foldl insertArgDefault t) tbl

/-- Processing of one in-stage instruction by the walk of
`PathsFromDockerfile`: the state is the Variable Table (the live
`buildArgs` map) and the accumulated path list.  Expansion
(`expandable.Expand(expandBuildArgs)`) reads the current table; the
`switch` then appends `Copy` sources when `cmd.From` is empty, always
appends `Add` sources, sets the table entries of an `Env` command
unconditionally, and appends the source of each local bind mount of a
`Run` command.  An in-stage `Arg` command matches no `case` of the
`switch` and leaves the state unchanged. -/
def stepCmd (st : List (String × String) × List String) (c : Instr) :
    List (String × String) × List String :=
  match c with
  | .arg _ => st
  | .env pairs =>
      ((pairs.map (fun kv => (kv.1, expandWord st.1 kv.2))).foldl
        (fun t kv => setKV t kv.1 kv.2) st.1, st.2)
  | .copy copyFrom sources =>
      if copyFrom = "" then (st.1, st.2 ++ sources.map (expandWord st.1)) else st
  | .add sources => (st.1, st.2 ++ sources.map (expandWord st.1))
  | .run mounts =>
      (st.1, st.2 ++ mounts.filterMap (fun m =>
        if m.mountFrom = "" && m.mountType = "bind"
        then some (expandWord st.1 m.mountSource) else none))

/-- Whether an instruction is an `Env` command. -/
def isEnvCmd : Instr → Bool
  | .env _ => true
  | _ => false

/-- `PathsFromDockerfile(res, buildArgs)` of `pkg/checksum/dockerfile.go`:
inserts the defaults of the meta `ARG` commands into the caller's map,
walks stages in order and instructions within a stage in order with
`stepCmd`, and returns the lexicographically sorted pattern list.  The Go
function mutates the caller's `buildArgs` map in place; the model returns
the final table as the second component. -/
def PathsFromDockerfile (r : Recipe) (buildArgs : List (String × String)) :
    List String × List (String × String) :=
  let tbl := applyMetaArgs r.metaArgs buildArgs
  let st := r.stages.foldl (fun s stage => stage.commands.foldl stepCmd s) (tbl, [])
  (sortStrings st.2, st.1)

/-- Splitting a slash-separated path or pattern into its segments. -/
def splitSlashAux : List Char → List Char → List String
  | [], acc => [String.mk acc.reverse]
  | c :: rest, acc =>
      if c = '/' then String.mk acc.reverse :: splitSlashAux rest []
      else splitSlashAux rest (c :: acc)

/-- Segments of a slash-separated path or pattern. -/
def splitSlash (s : String) : List String := splitSlashAux s.data []

/-- The normalisation in `CalculateDockerfileChecksum`: a pattern starting
with `./` is made relative to the root
(`if strings.HasPrefix(path, "./") { path = filepath.Rel(".", path) }`). -/
def relPattern (p : String) : String :=
  match p.data with
  | '.' :: '/' :: rest => String.mk rest
  | _ => p

/-- Matching of one path segment against one pattern segment.  The external
filesystem collaborator's `path.Match` is modelled for the pattern forms the
recipes use: a literal segment, or the single-component wildcard `*`. -/
def matchSeg (pat name : String) : Bool := pat == "*" || pat == name

/-- Hierarchical glob over directory entries (model of Go's
`fs.Glob(workdir, pattern)`): each pattern segment is matched against one
level; directories are visited in `fs.ReadDir` order (sorted by name), so
matches are produced in lexical order.  The final segment matches files and
directories alike; a pattern with no wildcard yields the literal path
exactly when it exists. -/
def globEnts : List String → String → List (String × FSTree) → List String
  | [], _, _ => []
  | [seg], pre, ents =>
      (sortByKey Prod.fst ents).filterMap
        (fun e => if matchSeg seg e.1 then some (pre ++ e.1) else none)
  | seg :: rest, pre, ents =>
      (sortByKey Prod.fst ents).flatMap
        (fun e =>
          match e.2 with
          | .dir es2 =>
              if matchSeg seg e.1 then globEnts rest (pre ++ e.1 ++ "/") es2 else []
          | .file _ => [])

/-- Go's `fs.Glob(workdir, pattern)` against the working-directory root. -/
def fsGlob (root : List (String × FSTree)) (pattern : String) : List String :=
  globEnts (splitSlash pattern) "" root

/-- Resolving a slash-separated path produced by `fsGlob` to its node
(model of `fs.Stat`/`Open`/`ReadDir` addressing). -/
def lookupSegs : List String → List (String × FSTree) → Option FSTree
  | [], _ => none
  | [seg], ents => (ents.find? (fun e => e.1 == seg)).map Prod.snd
  | seg :: rest, ents =>
      match ents.find? (fun e => e.1 == seg) with
      | some (_, .dir es2) => lookupSegs rest es2
      | _ => none

/-- The byte stream `pathSha(workdir, file, h)` of
`pkg/checksum/dockerfile.go` writes into the shared accumulator for the
matched path `file`.  Paths produced by `fsGlob` always resolve, so the
`none` branch (a stat failure, fatal in the Go code) is unreachable for
them. -/
def pathSha (root : List (String × FSTree)) (f : String) : String :=
  match lookupSegs (splitSlash f) root with
  | some t => flatSha f t
  | none => ""

/-- The per-path loop of `CalculateDockerfileChecksum`: for each pattern,
for each glob match, write the match name then stream the node's content
(`must(io.WriteString(h, file)); must0(pathSha(workdir, file, h))`). -/
def addPathsToHash (root : List (String × FSTree)) (h : String)
    (paths : List String) : String :=
  paths.foldl
    (fun acc p =>
      (fsGlob root (relPattern p)).foldl (fun a f => a ++ (f ++ pathSha root f)) acc)
    h

/-- The map-hashing helper `addMapToHash(h, m)`: keys sorted
lexicographically, each key written and then its value. -/
def addMapToHash (h : String) (m : List (String × String)) : String :=
  (sortStrings (m.map Prod.fst)).foldl (fun acc k => acc ++ (k ++ lookupD m k)) h

/-- The slice-hashing helper `addSliceToHash(h, s)`: sorts the caller's
slice (in place in the Go code) and writes each element. -/
def addSliceToHash (h : String) (s : List String) : String :=
  (sortStrings s).foldl (fun acc x => acc ++ x) h

/-- The `switch c.Hash` of `CalculateDockerfileChecksum`: the supported
hash algorithm identifiers. -/
def supportedHash (s : String) : Bool := s == "sha1" || s == "md5" || s == "sha256"

/-- Configuration of one invocation (`checksum.Config` plus the results of
the two external collaborators that the function consults first:
`DockerfileContent` is the successfully read recipe text and `recipe` the
successfully parsed instruction stream; their failure modes abort before
any hashing and are not modelled further). `Workdir` is the filesystem
view rooted at the working directory. -/
structure Config where
  BuildArgs : List (String × String)
  Labels : List (String × String)
  Platforms : List String
  Hash : String
  DockerfileContent : String
  recipe : Recipe
  Workdir : List (String × FSTree)

/-- `CalculateDockerfileChecksum(c)` of `pkg/checksum/dockerfile.go`: after
reading and parsing the recipe, an unsupported hash identifier aborts the
computation (a `panic` in the Go code, surfaced as an abortive error and
modelled as `Except.error`; nothing is emitted on the success channel).
Otherwise the single accumulator is fed, in order: the recipe bytes, the
per-path streams, the effective build-argument table left by
`PathsFromDockerfile` in the caller's map, the sorted platforms, and the
labels; the result is the hex-encoded final digest. -/
def CalculateDockerfileChecksum (c : Config) : Except String String :=
  if supportedHash c.Hash then
    let pr := PathsFromDockerfile c.recipe c.BuildArgs
    let h0 := c.DockerfileContent
    let h1 := addPathsToHash c.Workdir h0 pr.1
    let h2 := addMapToHash h1 pr.2
    let h3 := addSliceToHash h2 c.Platforms
    let h4 := addMapToHash h3 c.Labels
    Except.ok (hexEncode (hsum h4))
  else Except.error ("unknown hash algorithm " ++ c.Hash)

/-- Joined form of `addMapToHash`'s contribution. -/
def mapStream (m : List (String × String)) : String :=
  strConcat ((sortStrings (m.map Prod.fst)).map (fun k => k ++ lookupD m k))

/-- Joined form of `addSliceToHash`'s contribution. -/
def sliceStream (s : List String) : String := strConcat (sortStrings s)

/-- Joined form of one pattern's contribution to the path section. -/
def globStream (root : List (String × FSTree)) (p : String) : String :=
  strConcat ((fsGlob root (relPattern p)).map (fun f => f ++ pathSha root f))

/-- Joined form of the whole path section of the composition. -/
def pathsStream (root : List (String × FSTree)) (paths : List String) : String :=
  strConcat (paths.map (globStream root))

theorem addMapToHash_eq (h : String) (m : List (String × String)) :
    addMapToHash h m = h ++ mapStream m :=
  foldl_append_eq _ _ h

theorem addSliceToHash_eq (h : String) (s : List String) :
    addSliceToHash h s = h ++ sliceStream s := by
  have := foldl_append_eq (fun x : String => x) (sortStrings s) h
  simpa [addSliceToHash, sliceStream, List.map_id] using this

theorem addPathsToHash_eq (root : List (String × FSTree)) :
    ∀ (paths : List String) (h : String),
      addPathsToHash root h paths = h ++ pathsStream root paths := by
  intro paths
  induction paths with
  | nil => intro h; simp [addPathsToHash, pathsStream, strConcat]
  | cons p r ih =>
    intro h
    have hinner :
        (fsGlob root (relPattern p)).foldl (fun a f => a ++ (f ++ pathSha root f)) h
          = h ++ globStream root p :=
      foldl_append_eq _ _ h
    have houter : addPathsToHash root h (p :: r)
        = addPathsToHash root (h ++ globStream root p) r := by
      simp [addPathsToHash, hinner]
    rw [houter, ih]
    simp [pathsStream, strConcat, String.append_assoc]

theorem insertArgDefault_preserves {tbl : List (String × String)}
    {kv : String × Option String} {k v : String}
    (h : lookupKV tbl k = some v) :
    lookupKV (insertArgDefault tbl kv) k = some v := by
  obtain ⟨k0, d⟩ := kv
  cases d with
  | none => simpa [insertArgDefault] using h
  | some dv =>
    simp only [insertArgDefault]
    by_cases hp : (lookupKV tbl k0).isSome
    · simp [hp, h]
    · rw [if_neg hp]
      by_cases hk : k0 = k
      · subst hk
        rw [h] at hp
        simp at hp
      · rw [lookupKV_setKV_other tbl k0 dv k (fun hh => hk hh.symm)]
        exact h

theorem foldl_insertArgDefault_preserves :
    ∀ (args : List (String × Option String)) (tbl : List (String × String))
      (k v : String), lookupKV tbl k = some v →
      lookupKV (args.foldl insertArgDefault tbl) k = some v := by
  intro args
  induction args with
  | nil => intro tbl k v h; simpa using h
  | cons a r ih =>
    intro tbl k v h
    simp only [List.foldl_cons]
    exact ih _ k v (insertArgDefault_preserves h)

theorem applyMetaArgs_preserves :
    ∀ (metas : List (List (String × Option String)))
      (tbl : List (String × String)) (k v : String),
      lookupKV tbl k = some v →
      lookupKV (applyMetaArgs metas tbl) k = some v := by
  intro metas
  induction metas with
  | nil => intro tbl k v h; simpa [applyMetaArgs] using h
  | cons m r ih =>
    intro tbl k v h
    simp only [applyMetaArgs, List.foldl_cons]
    exact ih _ k v (foldl_insertArgDefault_preserves m tbl k v h)

/-- Modelled from the spec: the Tree Hasher digest of a resolved path
(spec section 4.3, the structural Merkle-style hash) as used by the spec's
composition step 2. -/
def specPathDigest (root : List (String × FSTree)) (f : String) : String :=
  match lookupSegs (splitSlash f) root with
  | some t => pathShaStruct f t
  | none => ""

/-- Modelled from the spec: the composition protocol of spec section 4.4 as
claim C3 states it — (1) recipe bytes; (2) per resolved path its name then
its Tree Hasher DIGEST; (3) build arguments, (4) platforms, (5) labels,
each sorted; (6) the hex-encoded digest of the single accumulator. -/
def SpecChecksum (c : Config) : Except String String :=
  if supportedHash c.Hash then
    let pr := PathsFromDockerfile c.recipe c.BuildArgs
    Except.ok (hexEncode (hsum (c.DockerfileContent
      ++ strConcat (pr.1.map (fun p =>
           strConcat ((fsGlob c.Workdir (relPattern p)).map
             (fun f => f ++ specPathDigest c.Workdir f))))
      ++ mapStream pr.2
      ++ sliceStream c.Platforms
      ++ mapStream c.Labels)))
  else Except.error ("unknown hash algorithm " ++ c.Hash)

instance : DecidableEq (Except String String) := fun a b =>
  match a, b with
  | .ok x, .ok y =>
      if h : x = y then isTrue (by rw [h]) else isFalse (fun hh => by cases hh; exact h rfl)
  | .error x, .error y =>
      if h : x = y then isTrue (by rw [h]) else isFalse (fun hh => by cases hh; exact h rfl)
  | .ok _, .error _ => isFalse (fun hh => by cases hh)
  | .error _, .ok _ => isFalse (fun hh => by cases hh)

/-- A one-file directory used as concrete input. -/
def tinyTree : FSTree := .dir [("f", .file "x")]

/-- Claim C1 (counterexample): the Tree Hasher digest of a directory is NOT
independent of the directory's own path.  `dirSha` writes
`filepath.Join(path, child.Name())` — the full child path — into the
per-directory accumulator, so the identical subtree hashed at path `a` and
at path `b` yields different digests. -/
theorem claim1_counterexample :
    pathShaStruct "a" tinyTree ≠ pathShaStruct "b" tinyTree := by decide

/-- Claim C1 (amended): for every directory, the Tree Hasher feeds, for each
child in name-sorted order, the pair (child path = directory path joined
with child name, child digest) into the per-directory hashing stream whose
hash is the directory's digest; the children processed are exactly the
directory's entries (a permutation of the physical listing), in name-sorted
order.  The digest therefore depends on the directory's own path as well as
on child names and contents. -/
theorem claim1_amended_dir_digest (p : String) (es : List (String × FSTree)) :
    pathShaStruct p (.dir es) =
      hsum (strConcat ((sortByKey Prod.fst es).map
        (fun e => filepathJoin p e.1 ++ pathShaStruct (filepathJoin p e.1) e.2)))
    ∧ List.Perm (sortByKey Prod.fst es) es
    ∧ List.Sorted (fun a b => strLe a.1 b.1 = true) (sortByKey Prod.fst es) :=
  ⟨pathShaStruct_dir p es, sortByKey_perm _ es, sortByKey_sorted _ es⟩

/-- Claim C2: the flattened directory hashing of
`pkg/checksum/dockerfile.go` (stream every descendant's path and content
into the single top-level accumulator, final digest = hash of that stream)
and the structural one of the first `main.go` variant (fresh per-directory
accumulator composed recursively) are not equivalent: they produce
different final digests for some tree. -/
theorem claim2_flat_struct_differ :
    ∃ (p : String) (t : FSTree), hsum (flatSha p t) ≠ pathShaStruct p t :=
  ⟨"d", tinyTree, by decide⟩

/-- Configuration with one matched file, used as concrete input for C3. -/
def flatVsSpecConfig : Config :=
  ⟨[], [], [], "sha1", "DF", ⟨[], [⟨[.copy "" [[.lit "b"]]]⟩]⟩, [("b", .file "x")]⟩

/-- Claim C3 (counterexample): the final checksum is NOT composed of each
resolved path's name followed by its Tree Hasher digest: the code streams
the path's raw content into the top-level accumulator instead of writing a
per-path digest, so on a one-file working directory the code's result
differs from the claimed composition. -/
theorem claim3_counterexample :
    CalculateDockerfileChecksum flatVsSpecConfig ≠ SpecChecksum flatVsSpecConfig := by
  decide

/-- Claim C3 (amended): for every invocation with a supported hash
algorithm, the final checksum is the hex-encoded digest of the single
accumulator fed, in this fixed order: (1) the raw recipe bytes; (2) for
each resolved path in order, the path's name then the path's flattened
content stream (file bytes, or the recursive child-path/content stream of
a directory) written directly into the accumulator; (3) the effective
build-argument pairs, keys sorted; (4) the platform list, sorted; (5) the
label pairs, keys sorted. -/
theorem claim3_amended_composition (c : Config) (hh : supportedHash c.Hash = true) :
    CalculateDockerfileChecksum c =
      Except.ok (hexEncode (hsum (c.DockerfileContent
        ++ pathsStream c.Workdir (PathsFromDockerfile c.recipe c.BuildArgs).1
        ++ mapStream (PathsFromDockerfile c.recipe c.BuildArgs).2
        ++ sliceStream c.Platforms
        ++ mapStream c.Labels))) := by
  simp only [CalculateDockerfileChecksum, hh, if_true, addPathsToHash_eq,
    addMapToHash_eq, addSliceToHash_eq, String.append_assoc]

/-- Witness for the amended claim C3 at a concrete configuration. -/
theorem claim3_witness :
    supportedHash flatVsSpecConfig.Hash = true
    ∧ CalculateDockerfileChecksum flatVsSpecConfig =
      Except.ok (hexEncode (hsum (flatVsSpecConfig.DockerfileContent
        ++ pathsStream flatVsSpecConfig.Workdir
            (PathsFromDockerfile flatVsSpecConfig.recipe flatVsSpecConfig.BuildArgs).1
        ++ mapStream
            (PathsFromDockerfile flatVsSpecConfig.recipe flatVsSpecConfig.BuildArgs).2
        ++ sliceStream flatVsSpecConfig.Platforms
        ++ mapStream flatVsSpecConfig.Labels))) :=
  ⟨rfl, claim3_amended_composition flatVsSpecConfig rfl⟩

/-- Recipe whose only stage declares an in-stage `ARG X=v` and then copies
`./${X}`; no explicit build arguments are supplied. -/
def inStageArgRecipe : Recipe :=
  ⟨[], [⟨[.arg [("X", some [.lit "v"])], .copy "" [[.lit "./", .var "X"]]]⟩]⟩

/-- Claim C4 (code evaluation at the failing input): an `ARG X=v`
instruction inside a stage does not insert its default into the Variable
Table — the walk's `switch` has no case for `ArgCommand`, and only the
pre-stage meta `ARG` commands are processed — so the subsequent
`COPY ./${X}` expands `X` to the empty string and the extracted pattern is
`./` instead of `./v`. -/
theorem claim4_in_stage_arg_ignored :
    (PathsFromDockerfile inStageArgRecipe []).1 = ["./"]
    ∧ lookupKV (PathsFromDockerfile inStageArgRecipe []).2 "X" = none := by decide

/-- Claim C5: throughout the instruction walk, (a) the meta-`ARG` default
insertion never overwrites an existing table entry — in particular an
explicitly supplied build argument survives it unchanged; (b) no in-stage
instruction other than an `Env` command modifies the Variable Table (an
in-stage `Arg` in particular leaves it untouched); (c) an `Env`
instruction sets the table entry for its name unconditionally — to the
value expanded with the table as it stood before the instruction —
overwriting any prior entry including an explicit build argument, so all
subsequent expansions and the final composition read the new value. -/
theorem claim5_variable_table_invariant :
    (∀ (metas : List (List (String × Option String)))
        (tbl : List (String × String)) (k v : String),
        lookupKV tbl k = some v → lookupKV (applyMetaArgs metas tbl) k = some v)
    ∧ (∀ (st : List (String × String) × List String) (c : Instr),
        isEnvCmd c = false → (stepCmd st c).1 = st.1)
    ∧ (∀ (st : List (String × String) × List String) (k : String) (w : Word),
        lookupKV ((stepCmd st (.env [(k, w)])).1) k = some (expandWord st.1 w)) := by
  refine ⟨applyMetaArgs_preserves, ?_, ?_⟩
  · intro st c hc
    cases c with
    | arg args => rfl
    | env pairs => simp [isEnvCmd] at hc
    | copy copyFrom sources =>
      simp only [stepCmd]
      split
      · rfl
      · rfl
    | add sources => rfl
    | run mounts => rfl
  · intro st k w
    simp only [stepCmd, List.map_cons, List.map_nil, List.foldl_cons, List.foldl_nil]
    exact lookupKV_setKV_self st.1 k (expandWord st.1 w)

/-- Witness for claim C5 at concrete inputs: an explicit build argument
survives a meta-`ARG` default for the same name; a `Copy` command leaves
the table unchanged; an `Env` command overwrites the explicit argument. -/
theorem claim5_witness :
    lookupKV [("A", "explicit")] "A" = some "explicit"
    ∧ lookupKV (applyMetaArgs [[("A", some "default")]] [("A", "explicit")]) "A"
        = some "explicit"
    ∧ isEnvCmd (.copy "" []) = false
    ∧ (stepCmd ([("A", "explicit")], []) (.copy "" [])).1 = [("A", "explicit")]
    ∧ lookupKV ((stepCmd ([("A", "explicit")], [])
        (.env [("A", [.lit "new"])])).1) "A" = some "new" :=
  ⟨by decide,
   claim5_variable_table_invariant.1 [[("A", some "default")]] [("A", "explicit")]
     "A" "explicit" (by decide),
   by decide,
   claim5_variable_table_invariant.2.1 ([("A", "explicit")], []) (.copy "" [])
     (by decide),
   (claim5_variable_table_invariant.2.2 ([("A", "explicit")], []) "A"
     [.lit "new"]).trans (by decide)⟩

/-- Claim C6: two filesystem views of the same directory whose entries are
identical in names and contents (a permutation of one entry list with
pairwise distinct names, as in a real directory) but listed in different
physical orders produce the identical Tree Hasher digest: `fs.ReadDir`
sorts the entries by name before they are fed to the hash. -/
theorem claim6_order_insensitive (p : String) (es1 es2 : List (String × FSTree))
    (hp : List.Perm es1 es2) (hn : (es1.map Prod.fst).Nodup) :
    pathShaStruct p (.dir es1) = pathShaStruct p (.dir es2) := by
  rw [pathShaStruct_dir, pathShaStruct_dir, sortByKey_eq_of_perm hp hn]

/-- Witness for claim C6: the two-entry directory listed in both orders. -/
theorem claim6_witness :
    List.Perm [("a", FSTree.file "1"), ("b", FSTree.file "2")]
      [("b", FSTree.file "2"), ("a", FSTree.file "1")]
    ∧ (([("a", FSTree.file "1"), ("b", FSTree.file "2")]).map Prod.fst).Nodup
    ∧ pathShaStruct "d" (.dir [("a", .file "1"), ("b", .file "2")])
        = pathShaStruct "d" (.dir [("b", .file "2"), ("a", .file "1")]) :=
  ⟨List.Perm.swap _ _ _, by decide,
   claim6_order_insensitive "d" _ _ (List.Perm.swap _ _ _) (by decide)⟩

/-- The example recipe of spec section 8: `COPY ./a/* /app`,
`COPY ./${ARG1} /app`, `RUN --mount=type=bind,source=./c,target=/x`. -/
def exampleRecipe : Recipe :=
  ⟨[], [⟨[.copy "" [[.lit "./a/*"]],
          .copy "" [[.lit "./", .var "ARG1"]],
          .run [⟨"bind", "", [.lit "./c"]⟩]]⟩]⟩

/-- Claim C7: on the example recipe with the explicit build argument
`ARG1=b`, the path extraction returns exactly the lexicographically sorted
pattern list `["./a/*", "./b", "./c"]`. -/
theorem claim7_example_patterns :
    (PathsFromDockerfile exampleRecipe [("ARG1", "b")]).1
      = ["./a/*", "./b", "./c"] := by decide

/-- Claim C8: a configuration whose hash-algorithm identifier is not one of
`sha1`, `md5`, `sha256` makes the computation abort with the
unknown-algorithm error (a `panic` in the Go code, before anything is
hashed), and no checksum is produced on the success output. -/
theorem claim8_unknown_hash_error (c : Config)
    (h : c.Hash ∉ (["sha1", "md5", "sha256"] : List String)) :
    CalculateDockerfileChecksum c
      = Except.error ("unknown hash algorithm " ++ c.Hash) := by
  have h1 : c.Hash ≠ "sha1" := fun hh => h (by rw [hh]; simp)
  have h2 : c.Hash ≠ "md5" := fun hh => h (by rw [hh]; simp)
  have h3 : c.Hash ≠ "sha256" := fun hh => h (by rw [hh]; simp)
  have hb : supportedHash c.Hash = false := by
    simp [supportedHash, h1, h2, h3]
  simp [CalculateDockerfileChecksum, hb]

/-- A configuration requesting the unsupported algorithm `sha512`. -/
def badHashConfig : Config := ⟨[], [], [], "sha512", "", ⟨[], []⟩, []⟩

/-- Witness for claim C8 at the concrete configuration. -/
theorem claim8_witness :
    "sha512" ∉ (["sha1", "md5", "sha256"] : List String)
    ∧ CalculateDockerfileChecksum badHashConfig
        = Except.error "unknown hash algorithm sha512" := by
  refine ⟨by decide, ?_⟩
  rw [claim8_unknown_hash_error badHashConfig (by decide)]
  decide

/-- Claim C9: a source-path pattern that matches zero filesystem paths is
silently skipped: the whole computation is total on it, it contributes no
bytes to the digest input stream, and the remaining patterns are processed
unchanged. -/
theorem claim9_empty_glob_skipped (root : List (String × FSTree)) (h : String)
    (pre post : List String) (p : String)
    (hz : fsGlob root (relPattern p) = []) :
    addPathsToHash root h (pre ++ p :: post) = addPathsToHash root h (pre ++ post) := by
  simp only [addPathsToHash, List.foldl_append, List.foldl_cons, hz, List.foldl_nil]

/-- One-file root used in the claim C9 witness. -/
def c9Root : List (String × FSTree) := [("a", .file "x")]

/-- Witness for claim C9: the pattern `zzz` matches nothing in the one-file
root and dropping it leaves the path section unchanged. -/
theorem claim9_witness :
    fsGlob c9Root (relPattern "zzz") = []
    ∧ addPathsToHash c9Root "h" (["a"] ++ "zzz" :: [])
        = addPathsToHash c9Root "h" (["a"] ++ []) :=
  ⟨by decide, claim9_empty_glob_skipped c9Root "h" ["a"] [] "zzz" (by decide)⟩

/-- Recipe with a meta `ARG A=d` and an in-stage `ENV K=v`, used for C10. -/
def mutateRecipe : Recipe := ⟨[[("A", some "d")]], [⟨[.env [("K", [.lit "v"])]]⟩]⟩

/-- Configuration with an empty explicit build-argument map and an unsorted
platform list, used for C10. -/
def mutateConfig : Config :=
  ⟨[], [], ["linux/arm64", "linux/amd64"], "sha1", "DF", mutateRecipe, []⟩

/-- Claim C10: the walk writes into the caller-supplied build-argument map
(modelled by the returned table): after `PathsFromDockerfile` the map holds
the effective table — here the recipe's `ARG` default and `ENV` value,
neither supplied by the caller — and composition step 3 hashes exactly
that table, not the caller's original (empty) map; `addSliceToHash` sorts
the caller's platform slice (in place in the Go code) before hashing. -/
theorem claim10_mutation_observable :
    (PathsFromDockerfile mutateRecipe mutateConfig.BuildArgs).2
        = [("A", "d"), ("K", "v")]
    ∧ mutateConfig.BuildArgs = []
    ∧ CalculateDockerfileChecksum mutateConfig
        = Except.ok (hexEncode (hsum
            ("DF" ++ ("A" ++ "d" ++ ("K" ++ "v")) ++ ("linux/amd64" ++ "linux/arm64"))))
    ∧ addSliceToHash "" mutateConfig.Platforms = "linux/amd64" ++ "linux/arm64" := by
  decide
